import Mathlib

/-!
Verification development for the translator-agent repository (SAA).

The definitions below are shallow embeddings of the Python source under
src/Services/translator_agent/.  Each definition's doc comment names the
Python function it embeds.  Strings are modelled as Lean Strings; where
character-level scanning happens in the source (regex tokenization,
str.strip), we work on List Char via String.data.
-/

set_option maxHeartbeats 1000000

namespace SAA

/-- Whitespace test for the characters handled by Python str.strip /
str.isspace (ASCII range; exotic Unicode whitespace does not occur in any
input considered here). -/
def pySpace (c : Char) : Bool :=
  c = ' ' || c = '\t' || c = '\n' || c = '\r' || c = '\x0b' || c = '\x0c'

/-- Python str.strip on a character list. -/
def pyStripL (cs : List Char) : List Char :=
  ((cs.dropWhile pySpace).reverse.dropWhile pySpace).reverse

/-- Python str.strip. -/
def pyStrip (s : String) : String := ⟨pyStripL s.data⟩

/-- Python truthiness of txt.strip(): true when the text is all whitespace
(so 'not txt.strip()' holds). -/
def pyBlank (cs : List Char) : Bool := cs.all pySpace

/-- Embedding of the InlineSpan dictionaries of
translate/translate_ir.py.  The optional dict keys bold/italic/code are
modelled as flags defaulting to false and href as an Option; a key that is
absent and a key that is present with a falsy value behave identically in
the source, so this quotient is faithful. -/
structure InlineSpan where
  text : String
  bold : Bool := false
  italic : Bool := false
  code : Bool := false
  href : Option String := none
deriving DecidableEq, Repr

/-- Embedding of _spans_to_tagged_text's per-span rendering
(translate/translate_ir.py lines 39-58): the if/elif chain is kept in
source order (code, bold+italic, bold, italic, truthy href, plain), and
whitespace-only spans are dropped. -/
def spanTagged (s : InlineSpan) : List Char :=
  let txt := s.text.data
  if pyBlank txt then []
  else if s.code then "[CODE]".data ++ txt ++ "[/CODE]".data
  else if s.bold && s.italic then "[B][I]".data ++ txt ++ "[/I][/B]".data
  else if s.bold then "[B]".data ++ txt ++ "[/B]".data
  else if s.italic then "[I]".data ++ txt ++ "[/I]".data
  else
    match s.href with
    | some h =>
      if h.data.isEmpty then txt
      else "[A href=\"".data ++ h.data ++ "\"]".data ++ txt ++ "[/A]".data
    | none => txt

/-- Embedding of _spans_to_tagged_text (the join of the per-span pieces). -/
def spansToTaggedText (spans : List InlineSpan) : String :=
  ⟨(spans.map spanTagged).flatten⟩

/-- The four tag names of the token regex in _tagged_text_to_spans. -/
inductive Tag where
  | B | I | CODE | A
deriving DecidableEq, Repr

/-- A lexed piece of a tagged string: an ordinary character, or one match
of the token regex (closing flag, tag name, optional href group). -/
inductive Tok where
  | chr (c : Char)
  | tag (closing : Bool) (t : Tag) (href : Option (List Char))
deriving DecidableEq, Repr

/-- Strip a literal character-list prefix, returning the remainder. -/
def stripPrefixL : List Char → List Char → Option (List Char)
  | [], l => some l
  | _ :: _, [] => none
  | a :: as, b :: bs => if a = b then stripPrefixL as bs else none

/-- The tag-name alternation (B|I|CODE|A) of the token regex.  The four
alternatives are mutually prefix-free, so first-match semantics agree with
the regex. -/
def parseTag : List Char → Option (Tag × List Char)
  | [] => none
  | c :: r =>
    if c = 'B' then some (.B, r)
    else if c = 'I' then some (.I, r)
    else if c = 'C' then
      match r with
      | 'O' :: 'D' :: 'E' :: r2 => some (.CODE, r2)
      | _ => none
    else if c = 'A' then some (.A, r)
    else none

/-- The optional group (?: href="([^"]+)")? of the token regex followed by
the closing bracket, returning the captured href and the remainder after
the bracket.  The capture [^"]+ is the maximal nonempty run of non-quote
characters; regex backtracking cannot produce any other parse. -/
def parseHrefPart (r : List Char) : Option (List Char × List Char) :=
  match stripPrefixL " href=\"".data r with
  | none => none
  | some r1 =>
    let run := r1.takeWhile (fun c => c ≠ '"')
    match r1.dropWhile (fun c => c ≠ '"') with
    | '"' :: ']' :: r3 => if run.isEmpty then none else some (run, r3)
    | _ => none

/-- The part of a token match after the bracket and the optional slash:
the tag alternation, then either the href group followed by the closing
bracket, or the closing bracket directly. -/
def matchTokenCore (closing : Bool) (r1 : List Char) :
    Option (Bool × Tag × Option (List Char) × List Char) :=
  match parseTag r1 with
  | none => none
  | some (t, r2) =>
    match parseHrefPart r2 with
    | some (h, r3) => some (closing, t, some h, r3)
    | none =>
      match r2 with
      | ']' :: r3 => some (closing, t, none, r3)
      | _ => none

/-- The optional (/?) group right after the opening bracket. -/
def matchTokenAfterBracket : List Char →
    Option (Bool × Tag × Option (List Char) × List Char)
  | '/' :: r1 => matchTokenCore true r1
  | r1 => matchTokenCore false r1

/-- One attempted match of the token regex
\[(/?)(B|I|CODE|A)(?: href="([^"]+)")?\] at the start of the input;
returns (closing, tag, href, remainder) on success. -/
def matchToken : List Char → Option (Bool × Tag × Option (List Char) × List Char)
  | [] => none
  | c :: rest => if c = '[' then matchTokenAfterBracket rest else none

/-- Fuelled tokenizer: repeatedly search for the leftmost token-regex
match (exactly the while-loop of _tagged_text_to_spans); characters not
part of a match are emitted individually.  The fuel only serves
termination; lex supplies enough of it. -/
def lexFuel : Nat → List Char → List Tok
  | 0, _ => []
  | _ + 1, [] => []
  | n + 1, c :: cs =>
    match matchToken (c :: cs) with
    | some (cl, t, h, rest) => .tag cl t h :: lexFuel n rest
    | none => .chr c :: lexFuel n cs

/-- Tokenization of a tagged string, as performed by the scanning loop of
_tagged_text_to_spans. -/
def lex (cs : List Char) : List Tok := lexFuel cs.length cs

/-- Stack entries of _tagged_text_to_spans: plain tag names, or the
("A", href) tuples pushed for links. -/
inductive SItem where
  | tg (t : Tag)
  | aHref (href : List Char)
deriving DecidableEq, Repr

/-- Does a stack item equal the given plain tag name. -/
def isTagItem (t : Tag) : SItem → Bool
  | .tg u => u = t
  | .aHref _ => false

/-- The href that flush_buf derives: Python iterates the stack bottom to
top and lets later ("A", href) tuples overwrite, so the topmost link wins;
our stacks keep the top at the head. -/
def stackHref : List SItem → Option (List Char)
  | [] => none
  | .aHref h :: _ => some h
  | .tg _ :: rest => stackHref rest

/-- Embedding of flush_buf: emit a span for a nonempty buffer, deriving
the style set from the stack (href only when truthy). -/
def flushSpan (st : List SItem) (buf : List Char) : List InlineSpan :=
  if buf.isEmpty then []
  else
    [{ text := ⟨buf⟩,
       bold := st.any (isTagItem .B),
       italic := st.any (isTagItem .I),
       code := st.any (isTagItem .CODE),
       href :=
         match stackHref st with
         | some h => if h.isEmpty then none else some ⟨h⟩
         | none => none }]

/-- Push for an opening token: ("A", href) for a truthy-href link, the
plain tag name otherwise. -/
def pushTok (t : Tag) (h : Option (List Char)) (st : List SItem) : List SItem :=
  match t, h with
  | .A, some hr => if hr.isEmpty then .tg .A :: st else .aHref hr :: st
  | _, _ => .tg t :: st

/-- Does a closing token for tag t match a stack item (t == item, or the
item is an ("A", href) tuple and t is "A"). -/
def tagMatches (t : Tag) : SItem → Bool
  | .tg u => u = t
  | .aHref _ => t = .A

/-- Pop-until-matching of _tagged_text_to_spans: the popped non-matching
items are pushed back, so the net effect removes the topmost matching item
and leaves the stack unchanged when nothing matches. -/
def popMatching (t : Tag) : List SItem → List SItem
  | [] => []
  | x :: xs => if tagMatches t x then xs else x :: popMatching t xs

/-- The token-consuming loop of _tagged_text_to_spans: buffer ordinary
characters, flush on every token, update the stack, and flush once more at
the end of input. -/
def processToks : List Tok → List SItem → List Char → List InlineSpan
  | [], st, buf => flushSpan st buf
  | .chr c :: ts, st, buf => processToks ts st (buf ++ [c])
  | .tag cl t h :: ts, st, buf =>
    flushSpan st buf ++ processToks ts (if cl then popMatching t st else pushTok t h st) []

/-- Embedding of _tagged_text_to_spans. -/
def taggedTextToSpans (s : String) : List InlineSpan :=
  processToks (lex s.data) [] []

/-- Concatenation of the text fields of a span list (the visible text). -/
def concatSpanTexts (spans : List InlineSpan) : String :=
  ⟨(spans.map fun sp => sp.text.data).flatten⟩

/-- The character carried by an ordinary token, none for a tag match. -/
def tokChar : Tok → Option Char
  | .chr c => some c
  | .tag _ _ _ => none

/-- The input with every match of the token regex removed: the characters
the tokenizer classifies as ordinary. -/
def stripTagTokens (s : String) : String :=
  ⟨(lex s.data).filterMap tokChar⟩

/-- A span that _spans_to_tagged_text renders without any surrounding
tags. -/
def isPlainB (s : InlineSpan) : Bool :=
  !s.bold && !s.italic && !s.code && s.href.isNone

/-- A well-formed href value: absent, or nonempty without quotes. -/
def hrefOkB : Option String → Bool
  | none => true
  | some h => !h.data.isEmpty && h.data.all fun c => c ≠ '"'

/-- A span that the codec round-trips: nonblank bracket-free text,
a style combination that the encoder's if/elif chain represents
unambiguously, and a well-formed href. -/
def canonicalSpanB (s : InlineSpan) : Bool :=
  !pyBlank s.text.data &&
  s.text.data.all (fun c => c ≠ '[' && c ≠ ']') &&
  (!s.code || (!s.bold && !s.italic && s.href.isNone)) &&
  ((!s.bold && !s.italic) || s.href.isNone) &&
  hrefOkB s.href

/-- No two consecutive spans are both tagless: the decoder cannot see the
boundary between two adjacent untagged runs. -/
def noTwoPlainB : List InlineSpan → Bool
  | a :: b :: rest => !(isPlainB a && isPlainB b) && noTwoPlainB (b :: rest)
  | _ => true

/-- The token sequence the tokenizer yields for one canonical span's
rendering (proof artifact mirroring spanTagged's branch order). -/
def spanToks (s : InlineSpan) : List Tok :=
  let txt := s.text.data
  if pyBlank txt then []
  else if s.code then
    .tag false .CODE none :: txt.map .chr ++ [.tag true .CODE none]
  else if s.bold && s.italic then
    .tag false .B none :: .tag false .I none :: txt.map .chr ++
      [.tag true .I none, .tag true .B none]
  else if s.bold then .tag false .B none :: txt.map .chr ++ [.tag true .B none]
  else if s.italic then .tag false .I none :: txt.map .chr ++ [.tag true .I none]
  else
    match s.href with
    | some h =>
      if h.data.isEmpty then txt.map .chr
      else .tag false .A (some h.data) :: txt.map .chr ++ [.tag true .A none]
    | none => txt.map .chr

/-- The span a trailing plain buffer flushes into (proof artifact). -/
def emitBuf (buf : List Char) : List InlineSpan :=
  if buf.isEmpty then [] else [{ text := ⟨buf⟩ }]

/-- First span, when present, is not tagless (proof artifact). -/
def headNotPlain : List InlineSpan → Prop
  | [] => True
  | sp :: _ => isPlainB sp = false

/-- A string with neither leading nor trailing whitespace; this is the
shape of the sentence strings the external blingfire sentence splitter
hands to split_paragraph. -/
def noEdgeSpace (l : List Char) : Prop :=
  (∀ c, l.head? = some c → pySpace c = false) ∧
  (∀ c, l.getLast? = some c → pySpace c = false)

instance (l : List Char) : Decidable (noEdgeSpace l) := by
  unfold noEdgeSpace
  infer_instance

/-- Single-space join of chunks and of sentences (the reassembly order
used by split_paragraph and by translate_ir_to_fa's chunk merge). -/
def joinSpace : List String → String
  | [] => ""
  | [s] => s
  | s :: ss => s ++ " " ++ joinSpace ss

/-- The greedy packing loop of split_paragraph (nl/chunking.py lines
7-15): try to extend the current chunk with the next sentence; on budget
overflow emit the current chunk and restart from the sentence.  tok
abstracts count_tokens(chunk, model).  Modelled from the spec:
nl/tokenizer.py is not in the source tree, and the spec only requires an
abstract token_count capability, so the counter is a parameter. -/
def chunkLoop (tok : String → Nat) (budget overhead : Nat) :
    List String → String → List String
  | [], cur => if cur = "" then [] else [cur]
  | s :: ss, cur =>
    let candidate := if cur = "" then s else pyStrip (cur ++ " " ++ s)
    if tok candidate + overhead ≤ budget then
      chunkLoop tok budget overhead ss candidate
    else
      (if cur = "" then [] else [cur]) ++ chunkLoop tok budget overhead ss s

/-- Embedding of split_paragraph (nl/chunking.py lines 5-16).  The raw
sentence list is the output of the external blingfire text_to_sentences
split on newlines; as in the source it is filtered by truthiness of
s.strip() and then greedily packed starting from the empty chunk. -/
def splitParagraph (tok : String → Nat) (rawSentences : List String)
    (budget overhead : Nat) : List String :=
  chunkLoop tok budget overhead (rawSentences.filter fun s => !pyBlank s.data) ""

/-- Legacy flat-IR block dict of the URL/file pipeline: id, type, level,
spans, children, attrs. -/
inductive FlatBlock where
  | mk (id : String) (btype : String) (level : Nat) (spans : List InlineSpan)
      (children : List FlatBlock) (attrs : List (String × String))

/-- The type tag of a flat block. -/
def FlatBlock.btype : FlatBlock → String
  | .mk _ t _ _ _ _ => t

/-- The level of a flat block. -/
def FlatBlock.level : FlatBlock → Nat
  | .mk _ _ l _ _ _ => l

/-- The spans of a flat block. -/
def FlatBlock.spans : FlatBlock → List InlineSpan
  | .mk _ _ _ s _ _ => s

/-- Legacy flat IR: a block list plus document attrs. -/
structure FlatIR where
  blocks : List FlatBlock
  attrs : List (String × String)

/-- Embedding of _prepend_notice (pipeline.py lines 31-54): a level-2
heading "Translation section" and a paragraph carrying the message are
placed before the original extracted blocks.  The two uuid4-generated ids
are parameters, since uuid4 is external nondeterminism. -/
def prependNotice (ir : FlatIR) (message : String) (id1 id2 : String) : FlatIR :=
  { blocks :=
      .mk id1 "heading" 2 [{ text := "Translation section" }] [] [] ::
      .mk id2 "paragraph" 0 [{ text := message }] [] [] ::
      ir.blocks,
    attrs := ir.attrs }

/-- The safe translation branch shared by pipeline_url (lines 68-80) and
pipeline_file (lines 143-155): identity when the detected language is
already "fa"; otherwise the notice when settings.openai_api_key is unset,
or when translate_ir_to_fa raises (a raising call is modelled by
translated = none, a successful one by some of its result). -/
def translateBranch (ir : FlatIR) (lang : String) (hasApiKey : Bool)
    (translated : Option FlatIR) (id1 id2 : String) : FlatIR :=
  if lang = "fa" then ir
  else if !hasApiKey then prependNotice ir "API key not valid" id1 id2
  else
    match translated with
    | some out => out
    | none => prependNotice ir "API key not valid" id1 id2

/-- The four things the output stage of the pipelines can do. -/
inductive OutAction where
  | terminal
  | writeDocx
  | writePdf
  | writeHtml
deriving DecidableEq, Repr

/-- Python str.lower (ASCII casing suffices for the format flags). -/
def pyLower (s : String) : String := ⟨s.data.map Char.toLower⟩

/-- Output-format dispatch of pipeline_url / pipeline_file (pipeline.py
lines 83-107 and 158-182): terminal returns plain text, docx/pdf/html
write that format, and the final else writes HTML for any other value. -/
def selectOutput (outFormat : String) : OutAction :=
  let f := pyLower outFormat
  if f = "terminal" then .terminal
  else if f = "docx" then .writeDocx
  else if f = "pdf" then .writePdf
  else if f = "html" then .writeHtml
  else .writeHtml

/-- The two boundary checks of pipeline_file (pipeline.py lines 127-141
and 158-182): an unsupported sniffed kind raises ValueError (modelled by
Except.error with the message), a supported kind proceeds to the output
dispatch. -/
def pipelineFileDispatch (kind outFormat : String) : Except String OutAction :=
  if kind = "html" ∨ kind = "pdf" ∨ kind = "docx" then
    .ok (selectOutput outFormat)
  else
    .error ("Unsupported file type: " ++ kind)

/-- IR v2 span (models/ir_v2.py Span); the tri-state Optional[bool] flags
are kept as Options.  Numeric layout fields (font size, color) are not
referenced by any claim and are omitted. -/
structure SpanV2 where
  text : String
  bold : Option Bool := none
  italic : Option Bool := none
  underline : Option Bool := none
  link : Option String := none
deriving DecidableEq, Repr

/-- The Union[Paragraph, ListItem, Heading] allowed inside cells,
textboxes, headers and footers (models/ir_v2.py), which excludes Table and
so bounds nesting. -/
inductive InnerBlock where
  | heading (level : Nat) (spans : List SpanV2)
  | para (spans : List SpanV2)
  | listItem (level : Nat) (ordered : Bool) (spans : List SpanV2)
deriving DecidableEq, Repr

/-- IR v2 table cell. -/
structure CellV2 where
  blocks : List InnerBlock
  colspan : Nat := 1
  rowspan : Nat := 1
deriving DecidableEq, Repr

/-- IR v2 table row. -/
structure RowV2 where
  cells : List CellV2
deriving DecidableEq, Repr

/-- IR v2 block union (models/ir_v2.py Block = Union[Heading, Paragraph,
ListItem, Table, Figure, Textbox]). -/
inductive BlockV2 where
  | heading (level : Nat) (spans : List SpanV2)
  | para (spans : List SpanV2)
  | listItem (level : Nat) (ordered : Bool) (spans : List SpanV2)
  | table (rows : List RowV2)
  | figure (imageId : String)
  | textbox (blocks : List InnerBlock)
deriving DecidableEq, Repr

/-- IR v2 section header (models/ir_v2.py Header). -/
structure HeaderV2 where
  blocks : List InnerBlock
deriving DecidableEq, Repr

/-- IR v2 section footer (models/ir_v2.py Footer). -/
structure FooterV2 where
  blocks : List InnerBlock
deriving DecidableEq, Repr

/-- IR v2 section (models/ir_v2.py Section): header and footer default to
None exactly as in the pydantic model. -/
structure SectionV2 where
  index : Nat
  header : Option HeaderV2 := none
  footer : Option FooterV2 := none
  blocks : List BlockV2
deriving DecidableEq, Repr

/-- The isinstance(block, Heading) and block.level <= 2 test of the
section groupers. -/
def isMajorHeading : BlockV2 → Bool
  | .heading level _ => level ≤ 2
  | _ => false

/-- The accumulator loop shared verbatim by _group_into_sections_simple
(docx_parser_v2.py lines 313-344) and _organize_into_sections_improved
(pdf_parser_v2.py lines 508-547): a level<=2 heading closes a nonempty
accumulator into a section with the next dense index, every block is
appended to the accumulator, and a trailing nonempty accumulator becomes
the final section. -/
def groupLoop : List BlockV2 → List BlockV2 → Nat → List SectionV2
  | [], cur, idx => if cur.isEmpty then [] else [⟨idx, none, none, cur⟩]
  | b :: bs, cur, idx =>
    if isMajorHeading b && !cur.isEmpty then
      ⟨idx, none, none, cur⟩ :: groupLoop bs [b] (idx + 1)
    else
      groupLoop bs (cur ++ [b]) idx

/-- Embedding of _group_into_sections_simple (docx_parser_v2.py lines
313-344). -/
def groupIntoSectionsSimple (blocks : List BlockV2) : List SectionV2 :=
  if (groupLoop blocks [] 0).isEmpty then [⟨0, none, none, blocks⟩]
  else groupLoop blocks [] 0

/-- Embedding of _organize_into_sections_improved (pdf_parser_v2.py lines
508-547).  Its loop is textually identical to the DOCX grouper; the
headers and footers arguments are accepted and, exactly as in the source
body, never used; the stats mutations do not affect the returned
sections. -/
def organizeIntoSectionsImproved (blocks : List BlockV2)
    (_headers _footers : List (Nat × String)) : List SectionV2 :=
  if (groupLoop blocks [] 0).isEmpty then [⟨0, none, none, blocks⟩]
  else groupLoop blocks [] 0

/-- Is the first list a prefix of the second (Python str.startswith for
one candidate). -/
def prefixOfL : List Char → List Char → Bool
  | [], _ => true
  | _ :: _, [] => false
  | a :: as, b :: bs => a = b && prefixOfL as bs

/-- Python text.startswith(tuple): any of the candidates is a prefix. -/
def pyStartsWithAny (text : String) (ps : List String) : Bool :=
  ps.any fun p => prefixOfL p.data text.data

/-- Python text.endswith(c) for a one-character suffix. -/
def pyEndsWith (text : String) (c : Char) : Bool :=
  match text.data.getLast? with
  | some d => d = c
  | none => false

/-- Python str.isupper: at least one cased character and no lowercase
one (ASCII casing, which covers every input considered here). -/
def pyIsUpper (s : String) : Bool :=
  s.data.any (fun c => c.isUpper || c.isLower) && s.data.all fun c => !c.isLower

/-- Embedding of _is_simple_heading (pdf_parser_v2.py lines 179-195); the
pattern list of _is_simple_heading_docx (docx_parser_v2.py lines 179-192)
is identical, so the DOCX variant reuses this after its style check. -/
def isSimpleHeading (text : String) : Bool :=
  pyStartsWithAny text ["Chapter", "Section", "Part", "Appendix", "CHAPTER", "SECTION"] ||
  pyStartsWithAny text ["1.", "2.", "3.", "4.", "5.", "6.", "7.", "8.", "9."] ||
  pyStartsWithAny text ["I.", "II.", "III.", "IV.", "V.", "VI.", "VII.", "VIII.", "IX.", "X."] ||
  pyStartsWithAny text ["A.", "B.", "C.", "D.", "E.", "F.", "G.", "H.", "I.", "J."] ||
  pyStartsWithAny text ["a)", "b)", "c)", "d)", "e)", "f)", "g)", "h)", "i)", "j)"] ||
  pyStartsWithAny text ["(1)", "(2)", "(3)", "(4)", "(5)", "(6)", "(7)", "(8)", "(9)"] ||
  (decide (text.length < 80) && !pyEndsWith text '.' && !pyEndsWith text ',') ||
  (pyIsUpper text && decide (text.length < 100))

/-- Embedding of _get_simple_heading_level (pdf_parser_v2.py lines
198-219); the pattern fall-through of the DOCX variant (lines 212-232) is
identical. -/
def simpleHeadingLevel (text : String) : Nat :=
  if pyStartsWithAny text ["Chapter", "CHAPTER", "Section", "SECTION"] then 1
  else if pyStartsWithAny text ["1.", "2.", "3.", "4.", "5."] then 1
  else if pyStartsWithAny text ["I.", "II.", "III.", "IV.", "V."] then 2
  else if pyStartsWithAny text ["A.", "B.", "C.", "D.", "E."] then 3
  else if pyStartsWithAny text ["a)", "b)", "c)", "d)", "e)"] then 4
  else if pyStartsWithAny text ["(1)", "(2)", "(3)", "(4)", "(5)"] then 4
  else if text.length < 30 then 1
  else if text.length < 50 then 2
  else 3

/-- Embedding of _is_simple_list_item (pdf_parser_v2.py lines 222-232),
identical to _is_simple_list_item_docx. -/
def isSimpleListItem (text : String) : Bool :=
  pyStartsWithAny text ["•", "-", "*", "◦", "▪", "▫"] ||
  pyStartsWithAny text ["1.", "2.", "3.", "4.", "5.", "6.", "7.", "8.", "9."] ||
  pyStartsWithAny text ["a)", "b)", "c)", "d)", "e)", "f)", "g)", "h)", "i)", "j)"] ||
  pyStartsWithAny text ["(a)", "(b)", "(c)", "(d)", "(e)", "(f)", "(g)", "(h)", "(i)", "(j)"] ||
  pyStartsWithAny text ["(1)", "(2)", "(3)", "(4)", "(5)", "(6)", "(7)", "(8)", "(9)"]

/-- Embedding of _get_simple_list_level (pdf_parser_v2.py lines 235-242),
identical to the DOCX variant. -/
def simpleListLevel (text : String) : Nat :=
  if pyStartsWithAny text ["    ", "\t"] then 1
  else if pyStartsWithAny text ["        ", "\t\t"] then 2
  else 0

/-- Embedding of _is_simple_ordered_list (pdf_parser_v2.py lines
245-248), identical to the DOCX variant: the Python text[0] indexing
presumes nonempty text, which every caller guarantees; empty text maps to
false. -/
def isSimpleOrderedList (text : String) : Bool :=
  (match text.data with
   | [] => false
   | c :: _ => c.isDigit && (text.data.take 5).contains '.') ||
  pyStartsWithAny text ["a)", "b)", "c)", "i)", "ii)", "iii)"]

/-- Python str.split on a literal newline. -/
def splitOnNL : List Char → List (List Char)
  | [] => [[]]
  | c :: cs =>
    if c = '\n' then [] :: splitOnNL cs
    else
      match splitOnNL cs with
      | [] => [[c]]
      | h :: t => (c :: h) :: t

/-- Embedding of _format_text_simple (pdf_parser_v2.py lines 148-176):
strip the block text, split into stripped nonempty lines, classify each
line heading-first, list-second, paragraph-default.  The unused page_num
parameter of the source is omitted. -/
def formatTextSimple (text : String) : List BlockV2 :=
  let t := pyStripL text.data
  if t.isEmpty then []
  else
    let lines := ((splitOnNL t).map pyStripL).filter fun l => !l.isEmpty
    lines.map fun lcs =>
      let line : String := ⟨lcs⟩
      if isSimpleHeading line then
        .heading (simpleHeadingLevel line) [{ text := line }]
      else if isSimpleListItem line then
        .listItem (simpleListLevel line) (isSimpleOrderedList line) [{ text := line }]
      else
        .para [{ text := line }]

/-- A DOCX run as far as the simple span extractor reads it. -/
structure RunM where
  text : String
  bold : Option Bool := none
  italic : Option Bool := none
  underline : Option Bool := none
deriving DecidableEq, Repr

/-- A DOCX paragraph as far as the simple classifier reads it: its plain
text, its style name, and its runs. -/
structure DocxParaM where
  text : String
  styleName : String
  runs : List RunM
deriving DecidableEq, Repr

/-- Substring containment, Python (needle in hay). -/
def containsSubL (hay needle : List Char) : Bool :=
  prefixOfL needle hay ||
    match hay with
    | [] => false
    | _ :: t => containsSubL t needle

/-- The line-break class of _normalize_text's first regex. -/
def isBreakChar (c : Char) : Bool := c = '\r' || c = '\n' || c = '\x0b'

/-- Replace every maximal run of p-characters by the single character r
(the effect of re.sub over one character class). -/
def collapseRuns (p : Char → Bool) (r : Char) : List Char → Bool → List Char
  | [], _ => []
  | c :: cs, inRun =>
    if p c then
      if inRun then collapseRuns p r cs true
      else r :: collapseRuns p r cs true
    else c :: collapseRuns p r cs false

/-- Embedding of _normalize_text (docx_parser_v2.py lines 712-718):
collapse break runs to a space, collapse space runs, strip. -/
def normalizeText (s : String) : String :=
  ⟨pyStripL (collapseRuns (fun c => c = ' ') ' '
    (collapseRuns isBreakChar ' ' s.data false) false)⟩

/-- Embedding of _is_simple_heading_docx (docx_parser_v2.py lines
171-192): the style check precedes the shared pattern list. -/
def isSimpleHeadingDocx (text styleName : String) : Bool :=
  let sn := (pyLower styleName).data
  containsSubL sn "heading".data || containsSubL sn "title".data ||
    isSimpleHeading text

/-- Embedding of _get_simple_heading_level_docx (docx_parser_v2.py lines
195-232): explicit heading styles first, then the shared pattern levels. -/
def simpleHeadingLevelDocx (text styleName : String) : Nat :=
  let sn := (pyLower styleName).data
  if containsSubL sn "heading 1".data || containsSubL sn "title".data then 1
  else if containsSubL sn "heading 2".data then 2
  else if containsSubL sn "heading 3".data then 3
  else if containsSubL sn "heading 4".data then 4
  else if containsSubL sn "heading 5".data then 5
  else if containsSubL sn "heading 6".data then 6
  else simpleHeadingLevel text

/-- Embedding of _extract_spans_simple (docx_parser_v2.py lines 264-287):
one span per nonempty normalized run, falling back to one plain span with
the paragraph's normalized text. -/
def extractSpansSimple (p : DocxParaM) : List SpanV2 :=
  let spans := p.runs.filterMap fun run =>
    let t := normalizeText run.text
    if t.data.isEmpty then none
    else some { text := t, bold := run.bold, italic := run.italic,
                underline := some run.underline.isSome }
  if spans.isEmpty then
    let fb := normalizeText p.text
    if fb.data.isEmpty then [] else [{ text := fb }]
  else spans

/-- Embedding of _parse_paragraph_simple (docx_parser_v2.py lines
147-168): heading check first, list check second, paragraph default; a
whitespace-only paragraph yields None. -/
def parseParagraphSimple (p : DocxParaM) : Option BlockV2 :=
  let text : String := ⟨pyStripL p.text.data⟩
  if text.data.isEmpty then none
  else if isSimpleHeadingDocx text p.styleName then
    some (.heading (simpleHeadingLevelDocx text p.styleName) (extractSpansSimple p))
  else if isSimpleListItem text then
    some (.listItem (simpleListLevel text) (isSimpleOrderedList text) (extractSpansSimple p))
  else
    some (.para (extractSpansSimple p))

/-- A raw PDF text block as read from page.get_text("blocks"):
coordinates (modelled as rationals) and the text. -/
structure RawPdfBlock where
  x0 : ℚ
  y0 : ℚ
  x1 : ℚ
  y1 : ℚ
  text : String
deriving DecidableEq, Repr

/-- Embedding of _identify_header_footer_candidates (pdf_parser_v2.py
lines 456-475): (stripped text, page number) pairs for nonblank blocks in
the top 10% band (header) or, failing that, in the bottom 10% band
(footer). -/
def identifyHFCandidates (blocks : List RawPdfBlock) (pageNum : Nat)
    (pageHeight : ℚ) : List (String × Nat) × List (String × Nat) :=
  blocks.foldl
    (fun acc b =>
      if pyBlank b.text.data then acc
      else if b.y0 < pageHeight * (1 / 10) then
        (acc.1 ++ [(pyStrip b.text, pageNum)], acc.2)
      else if b.y1 > pageHeight * (9 / 10) then
        (acc.1, acc.2 ++ [(pyStrip b.text, pageNum)])
      else acc)
    ([], [])

/-- Counter key order: first occurrence, as Python's Counter preserves. -/
def firstOccKeys (xs : List String) : List String :=
  xs.foldl (fun acc t => if acc.contains t then acc else acc ++ [t]) []

/-- Python dict assignment d[k] = v: overwrite in place or append. -/
def dictSet (d : List (Nat × String)) (k : Nat) (v : String) : List (Nat × String) :=
  if d.any (fun p => p.1 = k) then
    d.map fun p => if p.1 = k then (k, v) else p
  else d ++ [(k, v)]

/-- One band of _identify_headers_footers (pdf_parser_v2.py lines
478-505): every candidate text occurring more than once is promoted,
assigning it to each page it occurred on. -/
def promoteRecurring (cand : List (String × Nat)) : List (Nat × String) :=
  let texts := cand.map Prod.fst
  (firstOccKeys texts).foldl
    (fun d t =>
      if texts.count t > 1 then
        cand.foldl (fun d2 p => if p.1 = t then dictSet d2 p.2 t else d2) d
      else d)
    []

/-- Embedding of _identify_headers_footers: both bands. -/
def identifyHeadersFooters (headerCand footerCand : List (String × Nat)) :
    List (Nat × String) × List (Nat × String) :=
  (promoteRecurring headerCand, promoteRecurring footerCand)

/-- Embedding of _extract_page_blocks_improved (pdf_parser_v2.py lines
117-145) for a page without images: classify every nonblank raw text
block with _format_text_simple. -/
def extractPageBlocksImproved (blocks : List RawPdfBlock) : List BlockV2 :=
  ((blocks.filter fun b => !pyBlank b.text.data).map fun b =>
    formatTextSimple b.text).flatten

/-- The three passes of _parse_pages (pdf_parser_v2.py lines 92-114) for
pages of raw text blocks sharing one page height: extract blocks and
band candidates per page, promote recurring band text, organize into
sections. -/
def parsePagesModel (pages : List (List RawPdfBlock)) (pageHeight : ℚ) :
    List SectionV2 :=
  let allBlocks := (pages.map extractPageBlocksImproved).flatten
  let cands := pages.enum.map fun p =>
    identifyHFCandidates p.2 (p.1 + 1) pageHeight
  let hf := identifyHeadersFooters ((cands.map Prod.fst).flatten)
    ((cands.map Prod.snd).flatten)
  organizeIntoSectionsImproved allBlocks hf.1 hf.2

/-! ## Theorems -/

/-- The PDF organizer and the DOCX grouper have definitionally equal
bodies; the PDF one merely ignores its extra arguments. -/
theorem organize_eq_group (blocks : List BlockV2) (h f : List (Nat × String)) :
    organizeIntoSectionsImproved blocks h f = groupIntoSectionsSimple blocks := rfl

theorem groupLoop_eq_nil_iff :
    ∀ (bs cur : List BlockV2) (idx : Nat),
      groupLoop bs cur idx = [] ↔ bs = [] ∧ cur = [] := by
  intro bs
  induction bs with
  | nil =>
    intro cur idx
    cases cur <;> simp [groupLoop]
  | cons b bs ih =>
    intro cur idx
    simp only [groupLoop]
    split
    · simp
    · rw [ih]
      simp

theorem groupLoop_mem_shape :
    ∀ (bs cur : List BlockV2) (idx : Nat),
      (∀ b ∈ cur.tail, isMajorHeading b = false) →
      ∀ sec ∈ groupLoop bs cur idx,
        sec.header = none ∧ sec.footer = none ∧ sec.blocks ≠ [] ∧
          ∀ b ∈ sec.blocks.tail, isMajorHeading b = false := by
  intro bs
  induction bs with
  | nil =>
    intro cur idx hcur sec hsec
    simp only [groupLoop] at hsec
    split at hsec
    · simp at hsec
    · rename_i hne
      simp only [List.mem_singleton] at hsec
      subst hsec
      refine ⟨rfl, rfl, ?_, hcur⟩
      simpa [List.isEmpty_iff] using hne
  | cons b bs ih =>
    intro cur idx hcur sec hsec
    simp only [groupLoop] at hsec
    split at hsec
    · rename_i hcond
      rcases List.mem_cons.mp hsec with h | h
      · subst h
        have hcur_ne : cur ≠ [] := by
          intro hc
          subst hc
          simp at hcond
        exact ⟨rfl, rfl, hcur_ne, hcur⟩
      · exact ih [b] (idx + 1) (by simp) sec h
    · rename_i hcond
      refine ih (cur ++ [b]) idx ?_ sec hsec
      intro x hx
      cases cur with
      | nil => simp at hx
      | cons c t =>
        simp only [List.cons_append, List.tail_cons, List.mem_append,
          List.mem_singleton] at hx
        rcases hx with hx | hx
        · exact hcur x (by simpa using hx)
        · subst hx
          simpa using hcond

theorem groupLoop_no_major :
    ∀ (bs cur : List BlockV2) (idx : Nat),
      (∀ b ∈ bs, isMajorHeading b = false) → cur ≠ [] →
      groupLoop bs cur idx = [⟨idx, none, none, cur ++ bs⟩] := by
  intro bs
  induction bs with
  | nil =>
    intro cur idx _ hcur
    simp [groupLoop, List.isEmpty_iff, hcur]
  | cons b bs ih =>
    intro cur idx hmaj hcur
    have hb : isMajorHeading b = false := hmaj b (by simp)
    simp only [groupLoop, hb, Bool.false_and, if_neg (by simp : ¬(false = true))]
    rw [ih (cur ++ [b]) idx (fun x hx => hmaj x (by simp [hx])) (by simp)]
    simp

theorem group_of_shaped (l : List BlockV2)
    (h : ∀ b ∈ l.tail, isMajorHeading b = false) :
    groupIntoSectionsSimple l = [⟨0, none, none, l⟩] := by
  cases l with
  | nil => simp [groupIntoSectionsSimple, groupLoop]
  | cons c t =>
    have hloop : groupLoop (c :: t) [] 0 = [⟨0, none, none, c :: t⟩] := by
      simp only [groupLoop, List.isEmpty_nil, Bool.not_true, Bool.and_false,
        if_neg (by simp : ¬(false = true)), List.nil_append]
      rw [groupLoop_no_major t [c] 0 (by simpa using h) (by simp)]
      simp
    simp [groupIntoSectionsSimple, hloop]

/-- C4 (confirmed): both section groupers never return zero sections; a
nonempty block list yields at least one section, and the empty block list
yields exactly one section with zero blocks. -/
theorem c4_section_invariant (blocks : List BlockV2)
    (headers footers : List (Nat × String)) :
    groupIntoSectionsSimple blocks ≠ [] ∧
    organizeIntoSectionsImproved blocks headers footers ≠ [] ∧
    groupIntoSectionsSimple [] = [⟨0, none, none, []⟩] ∧
    organizeIntoSectionsImproved [] headers footers = [⟨0, none, none, []⟩] := by
  have hne : groupIntoSectionsSimple blocks ≠ [] := by
    unfold groupIntoSectionsSimple
    split
    · simp
    · rename_i hemp
      simpa [List.isEmpty_iff] using hemp
  exact ⟨hne, by rw [organize_eq_group]; exact hne,
    by simp [groupIntoSectionsSimple, groupLoop],
    by rw [organize_eq_group]; simp [groupIntoSectionsSimple, groupLoop]⟩

/-- C5 (confirmed): feeding the block list of any produced section back
through either grouper yields exactly one section carrying the same
blocks. -/
theorem c5_grouping_idempotent (blocks : List BlockV2)
    (headers footers : List (Nat × String)) (sec : SectionV2) :
    (sec ∈ groupIntoSectionsSimple blocks →
      groupIntoSectionsSimple sec.blocks = [⟨0, none, none, sec.blocks⟩]) ∧
    (sec ∈ organizeIntoSectionsImproved blocks headers footers →
      organizeIntoSectionsImproved sec.blocks headers footers =
        [⟨0, none, none, sec.blocks⟩]) := by
  have main : sec ∈ groupIntoSectionsSimple blocks →
      groupIntoSectionsSimple sec.blocks = [⟨0, none, none, sec.blocks⟩] := by
    intro hmem
    unfold groupIntoSectionsSimple at hmem
    split at hmem
    · rename_i hemp
      have hbl : blocks = [] := by
        have := (groupLoop_eq_nil_iff blocks [] 0).mp
          (by simpa [List.isEmpty_iff] using hemp)
        exact this.1
      subst hbl
      simp only [List.mem_singleton] at hmem
      subst hmem
      simp [groupIntoSectionsSimple, groupLoop]
    · have hshape := groupLoop_mem_shape blocks [] 0 (by simp) sec hmem
      exact group_of_shaped sec.blocks hshape.2.2.2
  refine ⟨main, ?_⟩
  rw [organize_eq_group, organize_eq_group]
  exact main

/-- C5 witness: regrouping the first section produced from a two-section
input reproduces it as a single section. -/
theorem c5_grouping_idempotent_witness :
    groupIntoSectionsSimple [BlockV2.para [{ text := "p" }]] =
      [⟨0, none, none, [BlockV2.para [{ text := "p" }]]⟩] :=
  (c5_grouping_idempotent
      [BlockV2.para [{ text := "p" }], BlockV2.heading 1 [{ text := "h" }]]
      [] [] ⟨0, none, none, [BlockV2.para [{ text := "p" }]]⟩).1
    (by decide)

/-- C7 counterexample: neither classifier returns the ListItem blocks the
claim asserts for the two scenario lines (heading detection runs first and
subsumes the list patterns). -/
theorem c7_list_classification_counterexample :
    formatTextSimple "a) First point" ≠
      [BlockV2.listItem 0 true [{ text := "a) First point" }]] ∧
    formatTextSimple "• Bullet point" ≠
      [BlockV2.listItem 0 false [{ text := "• Bullet point" }]] ∧
    parseParagraphSimple ⟨"a) First point", "Normal", []⟩ ≠
      some (BlockV2.listItem 0 true [{ text := "a) First point" }]) ∧
    parseParagraphSimple ⟨"• Bullet point", "Normal", []⟩ ≠
      some (BlockV2.listItem 0 false [{ text := "• Bullet point" }]) := by
  decide

/-- C7 amended: with no style hints, "a) First point" is classified as a
Heading of level 4 (the a)-prefix heading pattern fires before the list
check) and "• Bullet point" as a Heading of level 1 (the short-line
heading fallback fires, and the level defaults on length below 30), by
both the PDF and the DOCX simple classifier. -/
theorem c7_list_classification_amended :
    formatTextSimple "a) First point" =
      [BlockV2.heading 4 [{ text := "a) First point" }]] ∧
    formatTextSimple "• Bullet point" =
      [BlockV2.heading 1 [{ text := "• Bullet point" }]] ∧
    parseParagraphSimple ⟨"a) First point", "Normal", []⟩ =
      some (BlockV2.heading 4 [{ text := "a) First point" }]) ∧
    parseParagraphSimple ⟨"• Bullet point", "Normal", []⟩ =
      some (BlockV2.heading 1 [{ text := "• Bullet point" }]) := by
  decide

/-- C8 (confirmed): when the detected language equals the target "fa",
the translation dispatch returns the input document itself: no notice
blocks, no translation call, the identity. -/
theorem c8_language_skip_identity (ir : FlatIR) (hasApiKey : Bool)
    (translated : Option FlatIR) (id1 id2 : String) :
    translateBranch ir "fa" hasApiKey translated id1 id2 = ir := by
  simp [translateBranch]

/-- C2 counterexample: in the degraded branch the first block is a
heading of level 2 whose text is "Translation section", not the level-1
"Translation Not Available" heading the claim asserts. -/
theorem c2_translation_degrade_counterexample :
    (translateBranch
        ⟨[FlatBlock.mk "b0" "paragraph" 0 [{ text := "Hello world" }] [] []],
          [("lang", "auto")]⟩
        "en" false none "n1" "n2").blocks.head? =
      some (FlatBlock.mk "n1" "heading" 2 [{ text := "Translation section" }] [] []) ∧
    (2 : Nat) ≠ 1 ∧ "Translation section" ≠ "Translation Not Available" := by
  refine ⟨rfl, by decide, by decide⟩

/-- C2 amended: whenever the detected language differs from "fa" and
either no API key is configured or the translation call raises, the
translation step never raises and returns the IR whose first two blocks
are a level-2 heading "Translation section" and a paragraph
"API key not valid", followed by all original blocks unchanged and in
their original order. -/
theorem c2_translation_degrade_amended (ir : FlatIR) (lang : String)
    (hasApiKey : Bool) (translated : Option FlatIR) (id1 id2 : String)
    (hlang : lang ≠ "fa") (hfail : hasApiKey = false ∨ translated = none) :
    translateBranch ir lang hasApiKey translated id1 id2 =
      { blocks :=
          FlatBlock.mk id1 "heading" 2 [{ text := "Translation section" }] [] [] ::
          FlatBlock.mk id2 "paragraph" 0 [{ text := "API key not valid" }] [] [] ::
          ir.blocks,
        attrs := ir.attrs } := by
  rcases hfail with hk | ht
  · subst hk
    simp [translateBranch, prependNotice, hlang]
  · subst ht
    cases hasApiKey <;> simp [translateBranch, prependNotice, hlang]

/-- C2 amended witness at a concrete input. -/
theorem c2_translation_degrade_amended_witness :
    translateBranch ⟨[], []⟩ "en" false none "n1" "n2" =
      { blocks :=
          [FlatBlock.mk "n1" "heading" 2 [{ text := "Translation section" }] [] [],
           FlatBlock.mk "n2" "paragraph" 0 [{ text := "API key not valid" }] [] []],
        attrs := [] } :=
  c2_translation_degrade_amended ⟨[], []⟩ "en" false none "n1" "n2"
    (by decide) (Or.inl rfl)

/-- C9 counterexample: an output-format flag outside
{terminal, docx, pdf, html} does not make the pipeline fail; the dispatch
silently falls back to writing HTML. -/
theorem c9_invalid_input_counterexample :
    pipelineFileDispatch "pdf" "markdown" = Except.ok OutAction.writeHtml ∧
    "markdown" ≠ "terminal" ∧ "markdown" ≠ "docx" ∧
    "markdown" ≠ "pdf" ∧ "markdown" ≠ "html" := by
  refine ⟨rfl, by decide, by decide, by decide, by decide⟩

/-- C9 amended: an input file whose sniffed kind is unsupported raises a
ValueError with a descriptive message before producing output, but an
out-of-range output-format flag is not surfaced: the dispatch defaults to
writing HTML. -/
theorem c9_invalid_input_amended (kind fmt : String) :
    (¬(kind = "html" ∨ kind = "pdf" ∨ kind = "docx") →
      pipelineFileDispatch kind fmt =
        Except.error ("Unsupported file type: " ++ kind)) ∧
    ((kind = "html" ∨ kind = "pdf" ∨ kind = "docx") →
      ¬(pyLower fmt = "terminal" ∨ pyLower fmt = "docx" ∨
          pyLower fmt = "pdf" ∨ pyLower fmt = "html") →
      pipelineFileDispatch kind fmt = Except.ok OutAction.writeHtml) := by
  constructor
  · intro h
    simp [pipelineFileDispatch, h]
  · intro h hf
    push_neg at hf
    simp [pipelineFileDispatch, h, selectOutput, hf.1, hf.2.1, hf.2.2]

/-- C9 amended witness: a concrete unsupported kind errors, a concrete
unknown output flag silently writes HTML. -/
theorem c9_invalid_input_amended_witness :
    pipelineFileDispatch "txt" "docx" =
      Except.error ("Unsupported file type: " ++ "txt") ∧
    pipelineFileDispatch "pdf" "markdown" = Except.ok OutAction.writeHtml :=
  ⟨(c9_invalid_input_amended "txt" "docx").1 (by decide),
   (c9_invalid_input_amended "pdf" "markdown").2 (by decide) (by decide)⟩

/-- The organizer ignores the promoted header/footer maps, so the parsed
sections depend only on the extracted blocks. -/
theorem parsePagesModel_eq (pages : List (List RawPdfBlock)) (h : ℚ) :
    parsePagesModel pages h =
      groupIntoSectionsSimple ((pages.map extractPageBlocksImproved).flatten) := rfl

/-- C6 (code bug): on a three-page document whose top band carries
"Confidential Draft" on pages 1 and 3, _identify_headers_footers does
promote the recurring text (and not the single-page "Page Two"), but the
promoted maps are never attached: every section of the parsed document
has header = None and footer = None, and the recurring text remains twice
in the body blocks. -/
theorem c6_header_footer_code_bug :
    (identifyHeadersFooters
        (([[⟨10, 5, 200, 20, "Confidential Draft"⟩, ⟨10, 400, 200, 420, "Body one."⟩],
           [⟨10, 5, 200, 20, "Page Two"⟩, ⟨10, 400, 200, 420, "Body two."⟩],
           [⟨10, 5, 200, 20, "Confidential Draft"⟩, ⟨10, 400, 200, 420, "Body three."⟩]].enum.map
            fun p => (identifyHFCandidates p.2 (p.1 + 1) 792).1).flatten)
        (([[⟨10, 5, 200, 20, "Confidential Draft"⟩, ⟨10, 400, 200, 420, "Body one."⟩],
           [⟨10, 5, 200, 20, "Page Two"⟩, ⟨10, 400, 200, 420, "Body two."⟩],
           [⟨10, 5, 200, 20, "Confidential Draft"⟩, ⟨10, 400, 200, 420, "Body three."⟩]].enum.map
            fun p => (identifyHFCandidates p.2 (p.1 + 1) 792).2).flatten)).1 =
      [(1, "Confidential Draft"), (3, "Confidential Draft")] ∧
    ((parsePagesModel
        [[⟨10, 5, 200, 20, "Confidential Draft"⟩, ⟨10, 400, 200, 420, "Body one."⟩],
         [⟨10, 5, 200, 20, "Page Two"⟩, ⟨10, 400, 200, 420, "Body two."⟩],
         [⟨10, 5, 200, 20, "Confidential Draft"⟩, ⟨10, 400, 200, 420, "Body three."⟩]]
        792).map fun sec => (sec.header, sec.footer)) =
      [(none, none), (none, none), (none, none)] ∧
    ((parsePagesModel
        [[⟨10, 5, 200, 20, "Confidential Draft"⟩, ⟨10, 400, 200, 420, "Body one."⟩],
         [⟨10, 5, 200, 20, "Page Two"⟩, ⟨10, 400, 200, 420, "Body two."⟩],
         [⟨10, 5, 200, 20, "Confidential Draft"⟩, ⟨10, 400, 200, 420, "Body three."⟩]]
        792).map SectionV2.blocks).flatten.count
        (BlockV2.heading 1 [{ text := "Confidential Draft" }]) = 2 := by
  have hb1 : pyBlank "Confidential Draft".data = false := by decide
  have hb2 : pyBlank "Body one.".data = false := by decide
  have hb3 : pyBlank "Page Two".data = false := by decide
  have hb4 : pyBlank "Body two.".data = false := by decide
  have hb5 : pyBlank "Body three.".data = false := by decide
  have hq1 : ((5 : ℚ) < 792 * (1 / 10)) := by norm_num
  have hq2 : ¬((400 : ℚ) < 792 * (1 / 10)) := by norm_num
  have hq3 : ¬((420 : ℚ) > 792 * (9 / 10)) := by norm_num
  have hs1 : pyStrip "Confidential Draft" = "Confidential Draft" := by decide
  have hs3 : pyStrip "Page Two" = "Page Two" := by decide
  have e1 : identifyHFCandidates
      [⟨10, 5, 200, 20, "Confidential Draft"⟩, ⟨10, 400, 200, 420, "Body one."⟩]
      1 792 = ([("Confidential Draft", 1)], []) := by
    simp [identifyHFCandidates, hb1, hb2, hq1, hq2, hq3, hs1]
    norm_num
  have e2 : identifyHFCandidates
      [⟨10, 5, 200, 20, "Page Two"⟩, ⟨10, 400, 200, 420, "Body two."⟩]
      2 792 = ([("Page Two", 2)], []) := by
    simp [identifyHFCandidates, hb3, hb4, hq1, hq2, hq3, hs3]
    norm_num
  have e3 : identifyHFCandidates
      [⟨10, 5, 200, 20, "Confidential Draft"⟩, ⟨10, 400, 200, 420, "Body three."⟩]
      3 792 = ([("Confidential Draft", 3)], []) := by
    simp [identifyHFCandidates, hb1, hb5, hq1, hq2, hq3, hs1]
    norm_num
  refine ⟨?_, ?_, ?_⟩
  · simp only [List.enum, List.enumFrom, List.map, List.flatten, e1, e2, e3]
    decide
  · rw [parsePagesModel_eq]
    decide
  · rw [parsePagesModel_eq]
    decide

theorem flushSpan_texts (st : List SItem) (buf : List Char) :
    ((flushSpan st buf).map fun sp => sp.text.data).flatten = buf := by
  unfold flushSpan
  split
  · rename_i h
    simp_all [List.isEmpty_iff]
  · simp

theorem flushSpan_text_ne (st : List SItem) (buf : List Char) :
    ∀ sp ∈ flushSpan st buf, sp.text ≠ "" := by
  intro sp hsp
  unfold flushSpan at hsp
  split at hsp
  · simp at hsp
  · rename_i h
    simp only [List.mem_singleton] at hsp
    subst hsp
    intro heq
    have hd := congrArg String.data heq
    simp only at hd
    subst hd
    simp at h

theorem processToks_texts :
    ∀ (ts : List Tok) (st : List SItem) (buf : List Char),
      ((processToks ts st buf).map fun sp => sp.text.data).flatten =
        buf ++ ts.filterMap tokChar := by
  intro ts
  induction ts with
  | nil =>
    intro st buf
    simp [processToks, flushSpan_texts]
  | cons t ts ih =>
    intro st buf
    cases t with
    | chr c =>
      simp [processToks, ih, tokChar, List.filterMap_cons]
    | tag cl tg h =>
      simp [processToks, List.map_append, List.flatten_append,
        flushSpan_texts, ih, tokChar, List.filterMap_cons]

theorem processToks_text_ne :
    ∀ (ts : List Tok) (st : List SItem) (buf : List Char),
      ∀ sp ∈ processToks ts st buf, sp.text ≠ "" := by
  intro ts
  induction ts with
  | nil =>
    intro st buf
    exact flushSpan_text_ne st buf
  | cons t ts ih =>
    intro st buf sp hsp
    cases t with
    | chr c => exact ih st (buf ++ [c]) sp hsp
    | tag cl tg h =>
      simp only [processToks, List.mem_append] at hsp
      rcases hsp with hsp | hsp
      · exact flushSpan_text_ne st buf sp hsp
      · exact ih _ [] sp hsp

/-- C10 (confirmed): _tagged_text_to_spans is total over arbitrary
tagged strings (including malformed or reordered tags), every returned
span has nonempty text, and the concatenation of the returned texts is
the input with exactly the token-regex matches removed. -/
theorem c10_decoder_totality (s : String) :
    concatSpanTexts (taggedTextToSpans s) = stripTagTokens s ∧
    ∀ sp ∈ taggedTextToSpans s, sp.text ≠ "" := by
  constructor
  · unfold concatSpanTexts taggedTextToSpans stripTagTokens
    exact congrArg String.mk (by simpa using processToks_texts (lex s.data) [] [])
  · exact processToks_text_ne (lex s.data) [] []

/-- C10 witness at a concrete tagged string. -/
theorem c10_decoder_totality_witness :
    concatSpanTexts (taggedTextToSpans "a[B]b[/B]") = stripTagTokens "a[B]b[/B]" ∧
    ({ text := "a" } : InlineSpan).text ≠ "" :=
  ⟨(c10_decoder_totality "a[B]b[/B]").1,
   (c10_decoder_totality "a[B]b[/B]").2 { text := "a" } (by decide)⟩

theorem stripPrefixL_length :
    ∀ (p l r : List Char), stripPrefixL p l = some r → r.length + p.length = l.length := by
  intro p
  induction p with
  | nil =>
    intro l r h
    simp only [stripPrefixL, Option.some.injEq] at h
    subst h
    simp
  | cons a as ih =>
    intro l r h
    cases l with
    | nil => simp [stripPrefixL] at h
    | cons b bs =>
      simp only [stripPrefixL] at h
      split at h
      · have := ih bs r h
        simp only [List.length_cons]
        omega
      · simp at h

theorem parseTag_length :
    ∀ (l : List Char) (t : Tag) (r : List Char),
      parseTag l = some (t, r) → r.length < l.length := by
  intro l t r h
  cases l with
  | nil => simp [parseTag] at h
  | cons c cs =>
    simp only [parseTag] at h
    split at h
    · simp only [Option.some.injEq, Prod.mk.injEq] at h
      rw [← h.2]
      simp
    · split at h
      · simp only [Option.some.injEq, Prod.mk.injEq] at h
        rw [← h.2]
        simp
      · split at h
        · split at h
          · simp only [Option.some.injEq, Prod.mk.injEq] at h
            rw [← h.2]
            simp only [List.length_cons]
            omega
          · simp at h
        · split at h
          · simp only [Option.some.injEq, Prod.mk.injEq] at h
            rw [← h.2]
            simp
          · simp at h

theorem parseHrefPart_length :
    ∀ (l : List Char) (h : List Char) (r : List Char),
      parseHrefPart l = some (h, r) → r.length < l.length := by
  intro l h r hp
  unfold parseHrefPart at hp
  cases hsp : stripPrefixL " href=\"".data l with
  | none => rw [hsp] at hp; simp at hp
  | some r1 =>
    rw [hsp] at hp
    simp only at hp
    have hlen1 := stripPrefixL_length _ _ _ hsp
    cases hdw : r1.dropWhile (fun c => c ≠ '"') with
    | nil => rw [hdw] at hp; simp at hp
    | cons d ds =>
      rw [hdw] at hp
      have hdlen : (d :: ds).length ≤ r1.length := by
        rw [← hdw]
        exact (r1.dropWhile_sublist _).length_le
      cases ds with
      | nil =>
        split at hp <;> simp_all
      | cons e es =>
        split at hp
        · split at hp
          · simp at hp
          · simp only [Option.some.injEq, Prod.mk.injEq] at hp
            rename_i heq1
            have : r = es := by
              have := hp.2
              simp_all
            subst this
            simp only [List.length_cons] at hdlen
            simp only [List.length] at hlen1 ⊢
            omega
        · simp at hp

theorem matchTokenCore_length :
    ∀ (cl : Bool) (r1 : List Char) (b : Bool) (t : Tag)
      (h : Option (List Char)) (r : List Char),
      matchTokenCore cl r1 = some (b, t, h, r) → r.length < r1.length := by
  intro cl r1 b t h r hm
  unfold matchTokenCore at hm
  cases hpt : parseTag r1 with
  | none => rw [hpt] at hm; simp at hm
  | some q =>
    obtain ⟨t2, r2⟩ := q
    rw [hpt] at hm
    have h2 := parseTag_length _ _ _ hpt
    simp only at hm
    cases hph : parseHrefPart r2 with
    | some q2 =>
      obtain ⟨h3, r3⟩ := q2
      rw [hph] at hm
      simp only [Option.some.injEq, Prod.mk.injEq] at hm
      have h3l := parseHrefPart_length _ _ _ hph
      obtain ⟨-, -, -, hr⟩ := hm
      subst hr
      omega
    | none =>
      rw [hph] at hm
      split at hm
      · rename_i heq2
        exact absurd heq2 (by simp)
      · split at hm
        · simp only [Option.some.injEq, Prod.mk.injEq] at hm
          obtain ⟨-, -, -, hr⟩ := hm
          subst hr
          simp only [List.length_cons] at h2
          omega
        · simp at hm

theorem matchToken_length :
    ∀ (l : List Char) (b : Bool) (t : Tag) (h : Option (List Char)) (r : List Char),
      matchToken l = some (b, t, h, r) → r.length < l.length := by
  intro l b t h r hm
  cases l with
  | nil => simp [matchToken] at hm
  | cons c rest =>
    simp only [matchToken] at hm
    split at hm
    · unfold matchTokenAfterBracket at hm
      split at hm
      · have := matchTokenCore_length _ _ _ _ _ _ hm
        simp only [List.length_cons]
        omega
      · have := matchTokenCore_length _ _ _ _ _ _ hm
        simp only [List.length_cons]
        omega
    · simp at hm

theorem lexFuel_nil : ∀ n, lexFuel n [] = [] := by
  intro n
  cases n <;> rfl

theorem lexFuel_congr :
    ∀ (k : Nat) (cs : List Char) (n m : Nat),
      cs.length ≤ k → cs.length ≤ n → cs.length ≤ m →
      lexFuel n cs = lexFuel m cs := by
  intro k
  induction k with
  | zero =>
    intro cs n m h1 _ _
    have : cs = [] := by
      cases cs
      · rfl
      · simp at h1
    subst this
    rw [lexFuel_nil, lexFuel_nil]
  | succ k ih =>
    intro cs n m h1 h2 h3
    cases cs with
    | nil => rw [lexFuel_nil, lexFuel_nil]
    | cons c tl =>
      cases n with
      | zero => simp at h2
      | succ n' =>
        cases m with
        | zero => simp at h3
        | succ m' =>
          simp only [List.length_cons] at h1 h2 h3
          cases hmt : matchToken (c :: tl) with
          | none =>
            simp only [lexFuel, hmt]
            rw [ih tl n' m' (by omega) (by omega) (by omega)]
          | some q =>
            obtain ⟨cl, t, h, rest⟩ := q
            have hlt := matchToken_length _ _ _ _ _ hmt
            simp only [List.length_cons] at hlt
            simp only [lexFuel, hmt]
            rw [ih rest n' m' (by omega) (by omega) (by omega)]

theorem lex_cons (c : Char) (cs : List Char) :
    lex (c :: cs) =
      match matchToken (c :: cs) with
      | some (cl, t, h, rest) => Tok.tag cl t h :: lex rest
      | none => Tok.chr c :: lex cs := by
  unfold lex
  cases hmt : matchToken (c :: cs) with
  | none => simp only [List.length_cons, lexFuel, hmt]
  | some q =>
    obtain ⟨cl, t, h, rest⟩ := q
    have hlt := matchToken_length _ _ _ _ _ hmt
    simp only [List.length_cons] at hlt
    simp only [List.length_cons, lexFuel, hmt]
    congr 1
    exact lexFuel_congr cs.length rest cs.length rest.length (by omega) (by omega)
      (by omega)

theorem matchToken_not_bracket {c : Char} (h : c ≠ '[') (cs : List Char) :
    matchToken (c :: cs) = none := by
  simp [matchToken, h]

theorem lex_chr_prefix :
    ∀ (pre : List Char), (∀ c ∈ pre, c ≠ '[') →
      ∀ ds, lex (pre ++ ds) = pre.map Tok.chr ++ lex ds := by
  intro pre
  induction pre with
  | nil => intro _ ds; simp
  | cons c pre ih =>
    intro hpre ds
    rw [List.cons_append, lex_cons,
      matchToken_not_bracket (hpre c (by simp)) (pre ++ ds)]
    simp only [List.map_cons, List.cons_append]
    rw [ih (fun x hx => hpre x (by simp [hx])) ds]

theorem lex_openB (ds : List Char) :
    lex ('[' :: 'B' :: ']' :: ds) = .tag false .B none :: lex ds := by
  rw [lex_cons]; rfl

theorem lex_closeB (ds : List Char) :
    lex ('[' :: '/' :: 'B' :: ']' :: ds) = .tag true .B none :: lex ds := by
  rw [lex_cons]; rfl

theorem lex_openI (ds : List Char) :
    lex ('[' :: 'I' :: ']' :: ds) = .tag false .I none :: lex ds := by
  rw [lex_cons]; rfl

theorem lex_closeI (ds : List Char) :
    lex ('[' :: '/' :: 'I' :: ']' :: ds) = .tag true .I none :: lex ds := by
  rw [lex_cons]; rfl

theorem lex_openCODE (ds : List Char) :
    lex ('[' :: 'C' :: 'O' :: 'D' :: 'E' :: ']' :: ds) =
      .tag false .CODE none :: lex ds := by
  rw [lex_cons]; rfl

theorem lex_closeCODE (ds : List Char) :
    lex ('[' :: '/' :: 'C' :: 'O' :: 'D' :: 'E' :: ']' :: ds) =
      .tag true .CODE none :: lex ds := by
  rw [lex_cons]; rfl

theorem lex_closeA (ds : List Char) :
    lex ('[' :: '/' :: 'A' :: ']' :: ds) = .tag true .A none :: lex ds := by
  rw [lex_cons]; rfl

theorem stripPrefixL_self : ∀ (p l : List Char), stripPrefixL p (p ++ l) = some l := by
  intro p
  induction p with
  | nil => intro l; rfl
  | cons a as ih => intro l; simp [stripPrefixL, ih]

theorem takeWhile_append_stop {p : Char → Bool} :
    ∀ (l : List Char) (x : Char) (ys : List Char),
      (∀ c ∈ l, p c = true) → p x = false →
      (l ++ x :: ys).takeWhile p = l ∧ (l ++ x :: ys).dropWhile p = x :: ys := by
  intro l
  induction l with
  | nil =>
    intro x ys _ hx
    simp [List.takeWhile_cons, List.dropWhile_cons, hx]
  | cons c cs ih =>
    intro x ys hl hx
    have hc : p c = true := hl c (by simp)
    have := ih x ys (fun d hd => hl d (by simp [hd])) hx
    simp [List.takeWhile_cons, List.dropWhile_cons, hc, this.1, this.2]

theorem parseHrefPart_exact (h ds : List Char) (hne : h ≠ [])
    (hq : ∀ c ∈ h, c ≠ '"') :
    parseHrefPart (' ' :: 'h' :: 'r' :: 'e' :: 'f' :: '=' :: '"' ::
        (h ++ '"' :: ']' :: ds)) =
      some (h, ds) := by
  have hstep : ∀ c ∈ h, (fun c => decide ¬(c = '"')) c = true := by
    intro c hc
    simp [hq c hc]
  have htw := takeWhile_append_stop h '"' (']' :: ds) hstep (by simp)
  have hred : parseHrefPart (' ' :: 'h' :: 'r' :: 'e' :: 'f' :: '=' :: '"' ::
      (h ++ '"' :: ']' :: ds)) =
      (match (h ++ '"' :: ']' :: ds).dropWhile (fun c => c ≠ '"') with
       | '"' :: ']' :: r3 =>
         if ((h ++ '"' :: ']' :: ds).takeWhile (fun c => c ≠ '"')).isEmpty then none
         else some ((h ++ '"' :: ']' :: ds).takeWhile (fun c => c ≠ '"'), r3)
       | _ => none) := rfl
  rw [hred, htw.1, htw.2]
  simp [List.isEmpty_iff, hne]

theorem matchToken_openA (h ds : List Char) (hne : h ≠ [])
    (hq : ∀ c ∈ h, c ≠ '"') :
    matchToken ('[' :: 'A' :: ' ' :: 'h' :: 'r' :: 'e' :: 'f' :: '=' :: '"' ::
        (h ++ '"' :: ']' :: ds)) =
      some (false, .A, some h, ds) := by
  have hred : matchToken ('[' :: 'A' :: ' ' :: 'h' :: 'r' :: 'e' :: 'f' :: '=' :: '"' ::
      (h ++ '"' :: ']' :: ds)) =
      (match parseHrefPart (' ' :: 'h' :: 'r' :: 'e' :: 'f' :: '=' :: '"' ::
          (h ++ '"' :: ']' :: ds)) with
       | some (hh, r3) => some (false, Tag.A, some hh, r3)
       | none =>
         match (' ' :: 'h' :: 'r' :: 'e' :: 'f' :: '=' :: '"' ::
            (h ++ '"' :: ']' :: ds) : List Char) with
         | ']' :: r3 => some (false, Tag.A, none, r3)
         | _ => none) := rfl
  rw [hred, parseHrefPart_exact h ds hne hq]

theorem lex_openA (h ds : List Char) (hne : h ≠ []) (hq : ∀ c ∈ h, c ≠ '"') :
    lex ('[' :: 'A' :: ' ' :: 'h' :: 'r' :: 'e' :: 'f' :: '=' :: '"' ::
        (h ++ '"' :: ']' :: ds)) =
      .tag false .A (some h) :: lex ds := by
  rw [lex_cons, matchToken_openA h ds hne hq]

theorem canonical_parts (sp : InlineSpan) (hcanon : canonicalSpanB sp = true) :
    pyBlank sp.text.data = false ∧
    (∀ c ∈ sp.text.data, c ≠ '[') ∧
    (sp.code = true → sp.bold = false ∧ sp.italic = false ∧ sp.href = none) ∧
    ((sp.bold = true ∨ sp.italic = true) → sp.href = none) ∧
    (∀ h, sp.href = some h → h.data ≠ [] ∧ ∀ c ∈ h.data, c ≠ '"') := by
  simp only [canonicalSpanB, Bool.and_eq_true] at hcanon
  obtain ⟨⟨⟨⟨h1, h2⟩, h3⟩, h4⟩, h5⟩ := hcanon
  refine ⟨by simpa using h1, ?_, ?_, ?_, ?_⟩
  · intro c hc
    have := (List.all_eq_true.mp h2) c hc
    simp only [Bool.and_eq_true, decide_eq_true_eq] at this
    exact this.1
  · intro hcode
    rw [hcode] at h3
    simp only [Bool.not_true, Bool.false_or, Bool.and_eq_true,
      Bool.not_eq_true', Option.isNone_iff_eq_none] at h3
    exact ⟨h3.1.1, h3.1.2, h3.2⟩
  · intro hbi
    rcases hbi with hb | hi
    · rw [hb] at h4
      simp only [Bool.not_true, Bool.false_and, Bool.false_or,
        Option.isNone_iff_eq_none] at h4
      exact h4
    · rw [hi] at h4
      simp only [Bool.not_true, Bool.and_false, Bool.false_or,
        Option.isNone_iff_eq_none] at h4
      exact h4
  · intro h hh
    simp only [hh, hrefOkB, Bool.and_eq_true, Bool.not_eq_true',
      List.all_eq_true, decide_eq_true_eq] at h5
    refine ⟨fun hnil => ?_, h5.2⟩
    have h51 := h5.1
    rw [hnil] at h51
    simp at h51

theorem lex_spanTagged (sp : InlineSpan) (rest : List Char)
    (hcanon : canonicalSpanB sp = true) :
    lex (spanTagged sp ++ rest) = spanToks sp ++ lex rest := by
  obtain ⟨hblank, hbr, hcode, hbi, hhref⟩ := canonical_parts sp hcanon
  simp only [spanTagged, spanToks, hblank, Bool.false_eq_true, if_false]
  cases hc : sp.code with
  | true =>
    simp only [if_true]
    simp only [List.cons_append, List.nil_append, List.append_assoc]
    rw [lex_openCODE, lex_chr_prefix _ hbr, lex_closeCODE]
  | false =>
    simp only [Bool.false_eq_true, if_false]
    cases hb : sp.bold with
    | true =>
      cases hi : sp.italic with
      | true =>
        simp only [Bool.and_self, if_true]
        simp only [List.cons_append, List.nil_append, List.append_assoc]
        rw [lex_openB, lex_openI, lex_chr_prefix _ hbr, lex_closeI, lex_closeB]
      | false =>
        simp only [Bool.and_false, Bool.false_eq_true, if_false, if_true]
        simp only [List.cons_append, List.nil_append, List.append_assoc]
        rw [lex_openB, lex_chr_prefix _ hbr, lex_closeB]
    | false =>
      simp only [Bool.false_and, Bool.false_eq_true, if_false]
      cases hi : sp.italic with
      | true =>
        simp only [if_true]
        simp only [List.cons_append, List.nil_append, List.append_assoc]
        rw [lex_openI, lex_chr_prefix _ hbr, lex_closeI]
      | false =>
        simp only [Bool.false_eq_true, if_false]
        cases hh : sp.href with
        | none =>
          exact lex_chr_prefix _ hbr rest
        | some h =>
          obtain ⟨hne, hq⟩ := hhref h hh
          have hie : h.data.isEmpty = false := by
            simpa [List.isEmpty_iff] using hne
          simp only [hie, Bool.false_eq_true, if_false]
          simp only [List.cons_append, List.nil_append, List.append_assoc]
          rw [lex_openA h.data _ hne hq, lex_chr_prefix _ hbr, lex_closeA]

theorem lex_encode :
    ∀ (spans : List InlineSpan), (∀ sp ∈ spans, canonicalSpanB sp = true) →
      lex ((spans.map spanTagged).flatten) = (spans.map spanToks).flatten := by
  intro spans
  induction spans with
  | nil => intro _; rfl
  | cons sp tl ih =>
    intro hcanon
    simp only [List.map_cons, List.flatten_cons]
    rw [lex_spanTagged sp _ (hcanon sp (by simp)),
      ih (fun x hx => hcanon x (by simp [hx]))]

theorem flushSpan_empty (st : List SItem) : flushSpan st [] = [] := rfl

theorem flushSpan_nil_stack (buf : List Char) : flushSpan [] buf = emitBuf buf := rfl

theorem pyBlank_ne {l : List Char} (h : pyBlank l = false) : l ≠ [] := by
  intro hnil
  subst hnil
  simp [pyBlank] at h

theorem processToks_chrs :
    ∀ (cs : List Char) (ts : List Tok) (st : List SItem) (buf : List Char),
      processToks (cs.map Tok.chr ++ ts) st buf = processToks ts st (buf ++ cs) := by
  intro cs
  induction cs with
  | nil => intro ts st buf; simp
  | cons c cs ih =>
    intro ts st buf
    simp only [List.map_cons, List.cons_append, processToks, List.append_eq]
    rw [ih]
    simp

theorem noTwoPlainB_tail :
    ∀ (sp : InlineSpan) (tl : List InlineSpan),
      noTwoPlainB (sp :: tl) = true → noTwoPlainB tl = true := by
  intro sp tl h
  cases tl with
  | nil => rfl
  | cons b r =>
    simp only [noTwoPlainB, Bool.and_eq_true] at h
    exact h.2

theorem noTwoPlainB_head {sp sp2 : InlineSpan} {tl : List InlineSpan}
    (h : noTwoPlainB (sp :: sp2 :: tl) = true) (hp : isPlainB sp = true) :
    isPlainB sp2 = false := by
  simp only [noTwoPlainB, Bool.and_eq_true] at h
  have h1 := h.1
  rw [hp] at h1
  simpa using h1

theorem mkData (s : String) : String.mk s.data = s := rfl

theorem pushTok_CODE (st : List SItem) : pushTok .CODE none st = .tg .CODE :: st := rfl

theorem pushTok_B (st : List SItem) : pushTok .B none st = .tg .B :: st := rfl

theorem pushTok_I (st : List SItem) : pushTok .I none st = .tg .I :: st := rfl

theorem pushTok_A (h : List Char) (st : List SItem) (hne : h.isEmpty = false) :
    pushTok .A (some h) st = .aHref h :: st := by
  simp [pushTok, hne]

theorem popMatching_CODE1 : popMatching .CODE [.tg .CODE] = [] := rfl

theorem popMatching_B1 : popMatching .B [.tg .B] = [] := rfl

theorem popMatching_I1 : popMatching .I [.tg .I] = [] := rfl

theorem popMatching_I2 : popMatching .I [.tg .I, .tg .B] = [.tg .B] := rfl

theorem popMatching_A1 (h : List Char) : popMatching .A [.aHref h] = [] := rfl

theorem flushSpan_CODE1 (buf : List Char) (hne : buf ≠ []) :
    flushSpan [.tg .CODE] buf = [InlineSpan.mk ⟨buf⟩ false false true none] := by
  simp [flushSpan, List.isEmpty_iff, hne, isTagItem, stackHref]

theorem flushSpan_B1 (buf : List Char) (hne : buf ≠ []) :
    flushSpan [.tg .B] buf = [InlineSpan.mk ⟨buf⟩ true false false none] := by
  simp [flushSpan, List.isEmpty_iff, hne, isTagItem, stackHref]

theorem flushSpan_I1 (buf : List Char) (hne : buf ≠ []) :
    flushSpan [.tg .I] buf = [InlineSpan.mk ⟨buf⟩ false true false none] := by
  simp [flushSpan, List.isEmpty_iff, hne, isTagItem, stackHref]

theorem flushSpan_IB (buf : List Char) (hne : buf ≠ []) :
    flushSpan [.tg .I, .tg .B] buf = [InlineSpan.mk ⟨buf⟩ true true false none] := by
  simp [flushSpan, List.isEmpty_iff, hne, isTagItem, stackHref]

theorem flushSpan_AH (hd buf : List Char) (hne : buf ≠ []) (hh : hd.isEmpty = false) :
    flushSpan [.aHref hd] buf = [InlineSpan.mk ⟨buf⟩ false false false (some ⟨hd⟩)] := by
  simp [flushSpan, List.isEmpty_iff, hne, isTagItem, stackHref, hh]

theorem processToks_encode :
    ∀ (spans : List InlineSpan) (buf : List Char),
      (∀ sp ∈ spans, canonicalSpanB sp = true) →
      noTwoPlainB spans = true →
      (buf ≠ [] → headNotPlain spans) →
      processToks ((spans.map spanToks).flatten) [] buf = emitBuf buf ++ spans := by
  intro spans
  induction spans with
  | nil =>
    intro buf _ _ _
    simp [processToks, flushSpan_nil_stack]
  | cons sp tl ih =>
    intro buf hcanon hplain hhead
    obtain ⟨hblank, _, hcode, hbi, hhref⟩ :=
      canonical_parts sp (hcanon sp (by simp))
    have txtne : sp.text.data ≠ [] := pyBlank_ne hblank
    have htlc : ∀ x ∈ tl, canonicalSpanB x = true :=
      fun x hx => hcanon x (by simp [hx])
    have htlp : noTwoPlainB tl = true := noTwoPlainB_tail sp tl hplain
    simp only [List.map_cons, List.flatten_cons, spanToks, hblank,
      Bool.false_eq_true, if_false]
    cases hc : sp.code with
    | true =>
      obtain ⟨hb0, hi0, hh0⟩ := hcode hc
      have spEq : InlineSpan.mk sp.text false false true none = sp := by
        cases sp
        simp_all
      simp only [if_true, List.cons_append, List.append_assoc, List.nil_append,
        List.append_eq, List.singleton_append]
      simp only [processToks, Bool.false_eq_true, if_false, flushSpan_nil_stack,
        pushTok_CODE]
      rw [processToks_chrs]
      simp only [List.nil_append]
      simp only [processToks, eq_self_iff_true, if_true,
        flushSpan_CODE1 _ txtne, popMatching_CODE1]
      rw [ih [] htlc htlp (fun hx => absurd rfl hx)]
      simp [spEq, mkData, emitBuf]
    | false =>
      simp only [Bool.false_eq_true, if_false]
      cases hb : sp.bold with
      | true =>
        have hh0 : sp.href = none := hbi (Or.inl hb)
        cases hi : sp.italic with
        | true =>
          have spEq : InlineSpan.mk sp.text true true false none = sp := by
            cases sp
            simp_all
          simp only [Bool.and_self, if_true, List.cons_append, List.append_assoc,
            List.nil_append, List.append_eq, List.singleton_append]
          simp only [processToks, Bool.false_eq_true, if_false,
            flushSpan_nil_stack, flushSpan_empty, pushTok_B, pushTok_I]
          rw [processToks_chrs]
          simp only [List.nil_append]
          simp only [processToks, eq_self_iff_true, if_true,
            flushSpan_IB _ txtne, popMatching_I2, flushSpan_empty,
            popMatching_B1]
          rw [ih [] htlc htlp (fun hx => absurd rfl hx)]
          simp [spEq, mkData, emitBuf]
        | false =>
          have spEq : InlineSpan.mk sp.text true false false none = sp := by
            cases sp
            simp_all
          simp only [Bool.and_false, Bool.false_eq_true, if_false, if_true,
            List.cons_append, List.append_assoc, List.nil_append, List.append_eq,
            List.singleton_append]
          simp only [processToks, Bool.false_eq_true, if_false,
            flushSpan_nil_stack, pushTok_B]
          rw [processToks_chrs]
          simp only [List.nil_append]
          simp only [processToks, eq_self_iff_true, if_true,
            flushSpan_B1 _ txtne, popMatching_B1]
          rw [ih [] htlc htlp (fun hx => absurd rfl hx)]
          simp [spEq, mkData, emitBuf]
      | false =>
        simp only [Bool.false_and, Bool.false_eq_true, if_false]
        cases hi : sp.italic with
        | true =>
          have hh0 : sp.href = none := hbi (Or.inr hi)
          have spEq : InlineSpan.mk sp.text false true false none = sp := by
            cases sp
            simp_all
          simp only [if_true, List.cons_append, List.append_assoc,
            List.nil_append, List.append_eq, List.singleton_append]
          simp only [processToks, Bool.false_eq_true, if_false,
            flushSpan_nil_stack, pushTok_I]
          rw [processToks_chrs]
          simp only [List.nil_append]
          simp only [processToks, eq_self_iff_true, if_true,
            flushSpan_I1 _ txtne, popMatching_I1]
          rw [ih [] htlc htlp (fun hx => absurd rfl hx)]
          simp [spEq, mkData, emitBuf]
        | false =>
          simp only [Bool.false_eq_true, if_false]
          cases hh : sp.href with
          | some h =>
            obtain ⟨hne, _⟩ := hhref h hh
            have hie : h.data.isEmpty = false := by
              simpa [List.isEmpty_iff] using hne
            have spEq : InlineSpan.mk sp.text false false false (some h) = sp := by
              cases sp
              simp_all
            simp only [hie, Bool.false_eq_true, if_false, List.cons_append,
              List.append_assoc, List.nil_append, List.append_eq,
              List.singleton_append]
            simp only [processToks, Bool.false_eq_true, if_false,
              flushSpan_nil_stack, pushTok_A _ _ hie]
            rw [processToks_chrs]
            simp only [List.nil_append]
            simp only [processToks, eq_self_iff_true, if_true,
              flushSpan_AH _ _ txtne hie, popMatching_A1]
            rw [ih [] htlc htlp (fun hx => absurd rfl hx)]
            simp [spEq, mkData, emitBuf]
          | none =>
            have hip : isPlainB sp = true := by
              simp [isPlainB, hc, hb, hi, hh]
            have hbuf : buf = [] := by
              by_contra hbne
              have := hhead hbne
              simp only [headNotPlain] at this
              rw [hip] at this
              exact absurd this (by simp)
            subst hbuf
            have spEq : InlineSpan.mk sp.text false false false none = sp := by
              cases sp
              simp_all
            rw [processToks_chrs]
            simp only [List.nil_append]
            have hht : sp.text.data ≠ [] → headNotPlain tl := by
              intro _
              cases tl with
              | nil => trivial
              | cons sp2 tl2 =>
                simp only [headNotPlain]
                exact noTwoPlainB_head hplain hip
            rw [ih sp.text.data htlc htlp hht]
            simp [emitBuf, List.isEmpty_iff, txtne, spEq, mkData]

/-- C1 counterexample: two adjacent untagged spans with bracket-free text
are merged by the decoder, so decode(encode(spans)) differs from the
original list even though no span text contains a literal bracket. -/
theorem c1_roundtrip_counterexample :
    taggedTextToSpans (spansToTaggedText [{ text := "a" }, { text := "b" }]) =
      [{ text := "ab" }] ∧
    [({ text := "ab" } : InlineSpan)] ≠ [{ text := "a" }, { text := "b" }] ∧
    "a".data.all (fun c => c ≠ '[' && c ≠ ']') = true ∧
    "b".data.all (fun c => c ≠ '[' && c ≠ ']') = true := by
  decide

/-- C1 amended: decode(encode(spans)) = spans holds when additionally
every span has non-whitespace-only text without brackets, carries a style
combination the encoder represents unambiguously (code or a link exclude
the other flags) with a nonempty quote-free href when present, and no two
consecutive spans are both untagged. -/
theorem c1_roundtrip_amended (spans : List InlineSpan)
    (hcanon : ∀ sp ∈ spans, canonicalSpanB sp = true)
    (hplain : noTwoPlainB spans = true) :
    taggedTextToSpans (spansToTaggedText spans) = spans := by
  unfold taggedTextToSpans spansToTaggedText
  rw [show (String.mk ((spans.map spanTagged).flatten)).data =
      (spans.map spanTagged).flatten from rfl]
  rw [lex_encode spans hcanon]
  have := processToks_encode spans [] hcanon hplain (fun hx => absurd rfl hx)
  simpa [emitBuf] using this

/-- C1 amended witness: a bold span followed by a plain span
round-trips. -/
theorem c1_roundtrip_amended_witness :
    taggedTextToSpans (spansToTaggedText
        [{ text := "a", bold := true }, { text := "b" },
         { text := "u", href := some "x" }]) =
      [{ text := "a", bold := true }, { text := "b" },
       { text := "u", href := some "x" }] :=
  c1_roundtrip_amended _ (by decide) (by decide)

theorem dropWhile_id_of_head (p : Char → Bool) (l : List Char)
    (h : ∀ c, l.head? = some c → p c = false) : l.dropWhile p = l := by
  cases l with
  | nil => rfl
  | cons c t => simp [List.dropWhile_cons, h c rfl]

theorem pyStripL_noEdge (l : List Char) (h : noEdgeSpace l) : pyStripL l = l := by
  unfold pyStripL
  rw [dropWhile_id_of_head _ _ h.1]
  rw [dropWhile_id_of_head _ _ (fun c hc => h.2 c (by rwa [List.head?_reverse] at hc))]
  exact List.reverse_reverse l

theorem getLast?_append_right (a b : List Char) (h : b ≠ []) :
    (a ++ b).getLast? = b.getLast? := by
  rw [List.getLast?_append]
  cases hb : b.getLast? with
  | none => exact absurd (by simpa using hb) h
  | some x => rfl

theorem getLast?_cons_ne (c : Char) (b : List Char) (h : b ≠ []) :
    (c :: b).getLast? = b.getLast? := by
  rw [show (c :: b) = [c] ++ b from rfl]
  exact getLast?_append_right [c] b h

theorem head?_append_left (a b : List Char) (h : a ≠ []) :
    (a ++ b).head? = a.head? := by
  cases a with
  | nil => exact absurd rfl h
  | cons c t => rfl

theorem strNe_data {s : String} (h : s ≠ "") : s.data ≠ [] :=
  fun hd => h (String.ext hd)

theorem neStr_of_data {s : String} (h : s.data ≠ []) : s ≠ "" :=
  fun he => h (by rw [he])

theorem noEdgeSpace_glue (a b : List Char) (ha : noEdgeSpace a) (hb : noEdgeSpace b)
    (hane : a ≠ []) (hbne : b ≠ []) : noEdgeSpace (a ++ ' ' :: b) := by
  constructor
  · intro c hc
    rw [head?_append_left _ _ hane] at hc
    exact ha.1 c hc
  · intro c hc
    rw [getLast?_append_right _ _ (List.cons_ne_nil _ _),
      getLast?_cons_ne _ _ hbne] at hc
    exact hb.2 c hc

theorem strData_concat (cur s : String) :
    (cur ++ " " ++ s).data = cur.data ++ ' ' :: s.data := by
  rw [String.data_append, String.data_append]
  simp

theorem pyStrip_fix (x : String) (hx : noEdgeSpace x.data) : pyStrip x = x := by
  unfold pyStrip
  rw [pyStripL_noEdge _ hx]

theorem pyStrip_concat (cur s : String) (hc : noEdgeSpace cur.data)
    (hs : noEdgeSpace s.data) (hcne : cur ≠ "") (hsne : s ≠ "") :
    pyStrip (cur ++ " " ++ s) = cur ++ " " ++ s := by
  apply pyStrip_fix
  rw [strData_concat]
  exact noEdgeSpace_glue _ _ hc hs (strNe_data hcne) (strNe_data hsne)

theorem joinSpace_cons_ne (s : String) (rest : List String) (h : rest ≠ []) :
    joinSpace (s :: rest) = s ++ " " ++ joinSpace rest := by
  cases rest with
  | nil => exact absurd rfl h
  | cons a t => rfl

theorem joinSpace_merge (a b : String) (ss : List String) :
    joinSpace ((a ++ " " ++ b) :: ss) = joinSpace (a :: b :: ss) := by
  cases ss with
  | nil => rfl
  | cons c t =>
    rw [joinSpace_cons_ne _ _ (by simp), joinSpace_cons_ne a (b :: c :: t) (by simp),
      joinSpace_cons_ne b (c :: t) (by simp)]
    simp [String.append_assoc]

theorem chunkLoop_nonempty (tok : String → Nat) (budget overhead : Nat) :
    ∀ (ss : List String) (cur : String),
      ∀ c ∈ chunkLoop tok budget overhead ss cur, c ≠ "" := by
  intro ss
  induction ss with
  | nil =>
    intro cur c hc
    simp only [chunkLoop] at hc
    split at hc
    · simp at hc
    · rename_i hcur
      simp only [List.mem_singleton] at hc
      subst hc
      exact hcur
  | cons s ss ih =>
    intro cur c hc
    simp only [chunkLoop] at hc
    split at hc
    · split at hc
      · exact ih _ c hc
      · rw [List.nil_append] at hc
        exact ih _ c hc
    · rename_i hcur
      split at hc
      · exact ih _ c hc
      · rw [List.singleton_append, List.mem_cons] at hc
        rcases hc with hc | hc
        · subst hc
          exact hcur
        · exact ih s c hc

theorem chunkLoop_budget (tok : String → Nat) (budget overhead : Nat)
    (S : List String) :
    ∀ (ss : List String) (cur : String),
      (∀ s ∈ ss, s ∈ S) →
      (cur = "" ∨ tok cur + overhead ≤ budget ∨ cur ∈ S) →
      ∀ c ∈ chunkLoop tok budget overhead ss cur,
        tok c + overhead ≤ budget ∨ c ∈ S := by
  intro ss
  induction ss with
  | nil =>
    intro cur _ hcur c hc
    simp only [chunkLoop] at hc
    split at hc
    · simp at hc
    · rename_i hcne
      simp only [List.mem_singleton] at hc
      subst hc
      rcases hcur with h | h | h
      · exact absurd h hcne
      · exact Or.inl h
      · exact Or.inr h
  | cons s ss ih =>
    intro cur hss hcur c hc
    have hssrest : ∀ x ∈ ss, x ∈ S := fun x hx => hss x (by simp [hx])
    simp only [chunkLoop] at hc
    split at hc
    · split at hc
      · rename_i hfits
        exact ih _ hssrest (Or.inr (Or.inl hfits)) c hc
      · rw [List.nil_append] at hc
        exact ih s hssrest (Or.inr (Or.inr (hss s (by simp)))) c hc
    · rename_i hcne
      split at hc
      · rename_i hfits
        exact ih _ hssrest (Or.inr (Or.inl hfits)) c hc
      · rw [List.singleton_append, List.mem_cons] at hc
        rcases hc with hc | hc
        · subst hc
          rcases hcur with h | h | h
          · exact absurd h hcne
          · exact Or.inl h
          · exact Or.inr h
        · exact ih s hssrest (Or.inr (Or.inr (hss s (by simp)))) c hc

theorem chunkLoop_join (tok : String → Nat) (budget overhead : Nat) :
    ∀ (ss : List String) (cur : String),
      (∀ s ∈ ss, s ≠ "" ∧ noEdgeSpace s.data) →
      noEdgeSpace cur.data →
      ((cur = "" → joinSpace (chunkLoop tok budget overhead ss cur) = joinSpace ss) ∧
        (cur ≠ "" → chunkLoop tok budget overhead ss cur ≠ [] ∧
          joinSpace (chunkLoop tok budget overhead ss cur) =
            joinSpace (cur :: ss))) := by
  intro ss
  induction ss with
  | nil =>
    intro cur _ _
    constructor
    · intro h
      simp [chunkLoop, h]
    · intro h
      simp only [chunkLoop, if_neg h]
      exact ⟨by simp, trivial⟩
  | cons s ss ih =>
    intro cur hss hcur
    obtain ⟨hsne, hsedge⟩ := hss s (by simp)
    have hssrest : ∀ x ∈ ss, x ≠ "" ∧ noEdgeSpace x.data :=
      fun x hx => hss x (by simp [hx])
    constructor
    · intro hc
      subst hc
      simp only [chunkLoop, reduceIte]
      split
      · exact ((ih s hssrest hsedge).2 hsne).2
      · rw [List.nil_append]
        exact ((ih s hssrest hsedge).2 hsne).2
    · intro hc
      have hcand : pyStrip (cur ++ " " ++ s) = cur ++ " " ++ s :=
        pyStrip_concat cur s hcur hsedge hc hsne
      have hcanddata : (cur ++ " " ++ s).data = cur.data ++ ' ' :: s.data :=
        strData_concat cur s
      have hcandne : (cur ++ " " ++ s) ≠ "" :=
        neStr_of_data (by rw [hcanddata]; simp)
      have hcandedge : noEdgeSpace (cur ++ " " ++ s).data := by
        rw [hcanddata]
        exact noEdgeSpace_glue _ _ hcur hsedge (strNe_data hc) (strNe_data hsne)
      simp only [chunkLoop, if_neg hc, hcand]
      split
      · rename_i hfits
        obtain ⟨hne2, hjoin2⟩ :=
          (ih (cur ++ " " ++ s) hssrest hcandedge).2 hcandne
        exact ⟨hne2, by rw [hjoin2, joinSpace_merge]⟩
      · obtain ⟨hne2, hjoin2⟩ := (ih s hssrest hsedge).2 hsne
        constructor
        · simp
        · rw [show ([cur] ++ chunkLoop tok budget overhead ss s) =
              cur :: chunkLoop tok budget overhead ss s from rfl,
            joinSpace_cons_ne _ _ hne2, hjoin2,
            joinSpace_cons_ne cur (s :: ss) (by simp)]

/-- C3 (confirmed): over any abstract token counter, any budget and
overhead, and any blingfire sentence list (whose sentences carry no edge
whitespace, as the boundary detector guarantees), every chunk returned by
split_paragraph is nonempty, every chunk fits the budget except possibly
one equal to a single (filtered) input sentence, and the single-space
join of the chunks equals the single-space join of the sentences. -/
theorem c3_chunker_contract (tok : String → Nat) (rawSentences : List String)
    (budget overhead : Nat)
    (htrim : ∀ s ∈ rawSentences, noEdgeSpace s.data) :
    (∀ c ∈ splitParagraph tok rawSentences budget overhead, c ≠ "") ∧
    (∀ c ∈ splitParagraph tok rawSentences budget overhead,
      tok c + overhead ≤ budget ∨
        c ∈ rawSentences.filter fun s => !pyBlank s.data) ∧
    joinSpace (splitParagraph tok rawSentences budget overhead) =
      joinSpace (rawSentences.filter fun s => !pyBlank s.data) := by
  have hmemf : ∀ s ∈ rawSentences.filter (fun s => !pyBlank s.data),
      s ≠ "" ∧ noEdgeSpace s.data := by
    intro s hsm
    have hm := List.mem_filter.mp hsm
    refine ⟨?_, htrim s hm.1⟩
    intro he
    subst he
    simp [pyBlank] at hm
  refine ⟨?_, ?_, ?_⟩
  · exact fun c hc => chunkLoop_nonempty tok budget overhead _ "" c hc
  · exact fun c hc => chunkLoop_budget tok budget overhead _ _ ""
      (fun s hx => hx) (Or.inl rfl) c hc
  · exact (chunkLoop_join tok budget overhead _ "" hmemf
      (by constructor <;> (intro c hc; simp at hc))).1 rfl

/-- C3 witness at a concrete tokenizer and sentence list. -/
theorem c3_chunker_contract_witness :
    joinSpace (splitParagraph String.length ["Hello.", "World."] 9 1) =
      joinSpace (["Hello.", "World."].filter fun s => !pyBlank s.data) :=
  (c3_chunker_contract String.length ["Hello.", "World."] 9 1 (by decide)).2.2

end SAA
